import Mathlib

/-!
Verification of the vaccination-tracking domain state-update logic.

The data model follows `types.ts`; the three mutation entry points
(`addPatient`, `addVaccine`, `handleAdministerVaccine`) follow `App.tsx`.
TypeScript numbers are modelled as `Int` (the code only adds and subtracts
small integers), lists as `List`, optional values as `Option`, and the
possibly-null `dashboardStats` React state as `Option DashboardStats`.
-/

/-- Vaccination status enum from `types.ts` (`VaccinationStatus`). -/
inductive VaccinationStatus where
  | notVaccinated
  | partiallyVaccinated
  | fullyVaccinated
deriving DecidableEq, Repr

/-- Vaccine entry from `types.ts` (`Vaccine`). The `name` field is
`VaccineType | string` in the source, modelled as `String`. -/
structure Vaccine where
  id : String
  name : String
  manufacturer : String
  type : String
  dosesRequired : Nat
  efficacy : Int
  inStock : Int
deriving DecidableEq, Repr

/-- Vaccination record from `types.ts` (`VaccinationRecord`). -/
structure VaccinationRecord where
  vaccineId : String
  vaccineName : String
  date : String
deriving DecidableEq, Repr

/-- Patient entry from `types.ts` (`Patient`). -/
structure Patient where
  id : String
  name : String
  age : Nat
  gender : String
  email : String
  phone : String
  status : VaccinationStatus
  vaccinationHistory : List VaccinationRecord
  nextDoseDate : Option String
deriving DecidableEq, Repr

/-- Manufacturer-breakdown entry from `types.ts` (`DosesByManufacturer`). -/
structure DosesByManufacturer where
  name : String
  doses : Int
deriving DecidableEq, Repr

/-- Age-group entry from `types.ts` (`VaccinationsByAgeGroup`). -/
structure VaccinationsByAgeGroup where
  ageGroup : String
  vaccinated : Int
  total : Int
deriving DecidableEq, Repr

/-- Dashboard statistics from `types.ts` (`DashboardStats`). -/
structure DashboardStats where
  totalPatients : Int
  totalDosesAdministered : Int
  fullyVaccinatedCount : Int
  dosesByManufacturer : List DosesByManufacturer
  vaccinationsByAgeGroup : List VaccinationsByAgeGroup
deriving DecidableEq, Repr

/-- The in-memory application state held by `App.tsx`: the `patients`,
`vaccines` and `dashboardStats` React state variables. -/
structure AppState where
  patients : List Patient
  vaccines : List Vaccine
  dashboardStats : Option DashboardStats
deriving DecidableEq, Repr

/-- Modelled from the spec: the Status Derivation Engine
(`getPatientStatus` from `utils/vaccineUtils`, a module that is not part of
the repository snapshot; only its import and call sites appear in
`App.tsx`). Per spec §4.1: Not Vaccinated when the history is empty;
otherwise, for each distinct vaccine referenced in the history, the dose
count is compared against that vaccine's `dosesRequired` (resolved by
`vaccineId`, first catalog match); Fully Vaccinated when every started
series has reached its required count, Partially Vaccinated otherwise.
Chosen policies for the points §4.1/§9 leave open: a record whose
`vaccineId` does not resolve in the catalog is ignored for dose counting,
and a mixed course is Fully Vaccinated exactly when every one of its
distinct started series is complete. `App.tsx` destructures only the
`status` field of the result, so the model returns just the status. -/
def getPatientStatus (history : List VaccinationRecord) (catalog : List Vaccine) :
    VaccinationStatus :=
  if history.isEmpty then .notVaccinated
  else if ((history.map (fun r => r.vaccineId)).dedup).all (fun vid =>
      match catalog.find? (fun v => v.id == vid) with
      | some v => decide (v.dosesRequired ≤ (history.filter (fun r => r.vaccineId == vid)).length)
      | none => true)
  then .fullyVaccinated
  else .partiallyVaccinated

/-- `addPatient` from `App.tsx`: prepend the patient to the registry and,
when dashboard statistics are present, increment `totalPatients`. -/
def addPatient (patient : Patient) (s : AppState) : AppState :=
  { s with
    patients := patient :: s.patients,
    dashboardStats :=
      match s.dashboardStats with
      | some prev => some { prev with totalPatients := prev.totalPatients + 1 }
      | none => none }

/-- `addVaccine` from `App.tsx`: prepend the vaccine to the catalog and,
when dashboard statistics are present, append a `{name, doses: 0}`
manufacturer-breakdown entry unless one with the same name already exists. -/
def addVaccine (vaccine : Vaccine) (s : AppState) : AppState :=
  { s with
    vaccines := vaccine :: s.vaccines,
    dashboardStats :=
      match s.dashboardStats with
      | some prev =>
        if prev.dosesByManufacturer.any (fun d => d.name == vaccine.name) then
          some prev
        else
          some { prev with
            dosesByManufacturer := prev.dosesByManufacturer ++ [⟨vaccine.name, 0⟩] }
      | none => none }

/-- `handleAdministerVaccine` from `App.tsx`: no-op when `patientId` does
not resolve; otherwise append the record to the found patient's history,
recompute that patient's status via `getPatientStatus`, decrement the stock
of every catalog vaccine whose id matches the record, and, when dashboard
statistics are present, bump `totalDosesAdministered`, conditionally bump
`fullyVaccinatedCount`, and update the manufacturer breakdown. -/
def administerVaccine (patientId : String) (newRecord : VaccinationRecord)
    (nextDoseDateInput : Option String) (s : AppState) : AppState :=
  match s.patients.find? (fun p => p.id == patientId) with
  | none => s
  | some patientToUpdate =>
    let wasPreviouslyFullyVaccinated :=
      patientToUpdate.status == VaccinationStatus.fullyVaccinated
    let updatedHistory := patientToUpdate.vaccinationHistory ++ [newRecord]
    let newStatus := getPatientStatus updatedHistory s.vaccines
    let isNowFullyVaccinated := newStatus == VaccinationStatus.fullyVaccinated
    { patients := s.patients.map (fun p =>
        if p.id == patientId then
          { p with vaccinationHistory := updatedHistory, status := newStatus,
                   nextDoseDate := nextDoseDateInput }
        else p),
      vaccines := s.vaccines.map (fun v =>
        if v.id == newRecord.vaccineId then { v with inStock := v.inStock - 1 } else v),
      dashboardStats :=
        match s.dashboardStats with
        | none => none
        | some prev =>
          let updatedDoses := prev.dosesByManufacturer.map (fun d =>
            if d.name == newRecord.vaccineName then { d with doses := d.doses + 1 } else d)
          let updatedDoses' :=
            if updatedDoses.any (fun d => d.name == newRecord.vaccineName) then updatedDoses
            else updatedDoses ++ [⟨newRecord.vaccineName, 1⟩]
          some { prev with
            totalDosesAdministered := prev.totalDosesAdministered + 1,
            fullyVaccinatedCount :=
              if !wasPreviouslyFullyVaccinated && isNowFullyVaccinated then
                prev.fullyVaccinatedCount + 1
              else prev.fullyVaccinatedCount,
            dosesByManufacturer := updatedDoses' } }

/-- A mutation intent: one of the three operations `App.tsx` exposes to the
presentation layer. -/
inductive Op where
  | addPatient (p : Patient)
  | addVaccine (v : Vaccine)
  | administer (patientId : String) (r : VaccinationRecord) (nextDoseDate : Option String)
deriving DecidableEq, Repr

/-- Apply one mutation intent to the state. -/
def step (s : AppState) (op : Op) : AppState :=
  match op with
  | .addPatient p => addPatient p s
  | .addVaccine v => addVaccine v s
  | .administer pid r nd => administerVaccine pid r nd s

/-- Apply a sequence of mutation intents, oldest first. -/
def run (s : AppState) (ops : List Op) : AppState :=
  ops.foldl step s

/-! ### From-scratch recomputation of the dashboard statistics

Modelled from the spec (§3): the dashboard statistics are "a derived cache"
that "must be re-derivable from scratch from Registry+Catalog at any time".
The repository contains no recomputation function, so these definitions
follow the spec's description of each field: `totalPatients` is the
registry size, `totalDosesAdministered` is "the count of all administered
records across all patients", `fullyVaccinatedCount` is "the count of
patients currently Fully Vaccinated" (read off the registry's stored
status field), and `dosesByManufacturer` maps each vaccine name to the
cumulative doses administered under that name. The breakdown is compared
as a function from names to counts (`dosesFor`), since a list-level
comparison would additionally fix an entry order the spec does not
prescribe. `vaccinationsByAgeGroup` has no recomputation model: neither
the spec nor the repository defines the age buckets. -/

/-- Total doses credited to name `n` by a manufacturer-breakdown list. -/
def dosesFor (dbm : List DosesByManufacturer) (n : String) : Int :=
  (dbm.map (fun d => if d.name = n then d.doses else 0)).sum

/-- Modelled from the spec: doses administered under name `n`, recomputed
from scratch over the registry's vaccination histories. -/
def recomputedDosesOf (patients : List Patient) (n : String) : Int :=
  (patients.map (fun p =>
    ((p.vaccinationHistory.filter (fun r => r.vaccineName == n)).length : Int))).sum

/-- Modelled from the spec: total administered records across all patients. -/
def totalDosesOf (patients : List Patient) : Int :=
  (patients.map (fun p => (p.vaccinationHistory.length : Int))).sum

/-- Modelled from the spec: the number of patients whose stored status is
Fully Vaccinated. -/
def fullyCountOf (patients : List Patient) : Int :=
  (patients.map (fun p =>
    if p.status = VaccinationStatus.fullyVaccinated then (1 : Int) else 0)).sum

/-- The dashboard statistics, when present, agree with the statistics
recomputed from scratch over registry and catalog (on the four fields for
which a from-scratch recomputation is defined). -/
def statsConsistent (s : AppState) : Prop :=
  ∀ st, s.dashboardStats = some st →
    st.totalPatients = (s.patients.length : Int) ∧
    st.totalDosesAdministered = totalDosesOf s.patients ∧
    st.fullyVaccinatedCount = fullyCountOf s.patients ∧
    ∀ n, dosesFor st.dosesByManufacturer n = recomputedDosesOf s.patients n

/-- Every patient's stored status equals the status derived from that
patient's history against the current catalog (spec §3 invariant). -/
def statusInv (s : AppState) : Prop :=
  ∀ p ∈ s.patients, p.status = getPatientStatus p.vaccinationHistory s.vaccines

/-- The manufacturer-breakdown entries, when statistics are present, have
pairwise-distinct names. -/
def statsNamesNodup (s : AppState) : Prop :=
  ∀ st, s.dashboardStats = some st →
    (st.dosesByManufacturer.map DosesByManufacturer.name).Nodup

/-- The registry's patient ids are pairwise distinct. -/
def registryIdsNodup (s : AppState) : Prop :=
  (s.patients.map Patient.id).Nodup

/-- Precondition under which one operation preserves `statusInv`: an added
patient must carry the status derived from its own history against the
current catalog, and an added vaccine's id must not be referenced by any
existing history record (a new catalog entry can otherwise change how an
existing record's `vaccineId` resolves). Administering a dose needs no
precondition. -/
def statusSafe (s : AppState) : Op → Prop
  | .addPatient p => p.status = getPatientStatus p.vaccinationHistory s.vaccines
  | .addVaccine v => ∀ q ∈ s.patients, ∀ r0 ∈ q.vaccinationHistory, r0.vaccineId ≠ v.id
  | .administer _ _ _ => True

/-- Precondition on one operation under which the incrementally maintained
statistics keep agreeing with the from-scratch recomputation: an added
patient is genuinely new (fresh id, empty history, not Fully Vaccinated),
and an administered dose never moves an already Fully Vaccinated patient
out of Fully Vaccinated (the code has no decrement path for
`fullyVaccinatedCount`). Adding a vaccine needs no precondition. -/
def goodOp (s : AppState) : Op → Prop
  | .addPatient p => p.vaccinationHistory = [] ∧
      p.status ≠ VaccinationStatus.fullyVaccinated ∧ ∀ q ∈ s.patients, q.id ≠ p.id
  | .addVaccine _ => True
  | .administer pid r _ =>
      match s.patients.find? (fun q => q.id == pid) with
      | some p => p.status = VaccinationStatus.fullyVaccinated →
          getPatientStatus (p.vaccinationHistory ++ [r]) s.vaccines =
            VaccinationStatus.fullyVaccinated
      | none => True

/-- `goodOp` holding at every step of a run. -/
def goodOps : AppState → List Op → Prop
  | _, [] => True
  | s, op :: rest => goodOp s op ∧ goodOps (step s op) rest

/-- Combined invariant propagated along a run to establish statistics
consistency: distinct patient ids, distinct breakdown names, and agreement
of the statistics with the from-scratch recomputation. -/
def dashboardInv (s : AppState) : Prop :=
  registryIdsNodup s ∧ statsNamesNodup s ∧ statsConsistent s

/-- The operation is an `addVaccine` or `administerVaccine` intent (the two
operations the breakdown-uniqueness property quantifies over). -/
def isStatsOp : Op → Prop
  | .addPatient _ => False
  | .addVaccine _ => True
  | .administer _ _ _ => True

/-! ### Concrete example data for instantiations -/

/-- A two-dose vaccine with stock 10. -/
def exVaccine1 : Vaccine := ⟨"v1", "Pfizer-BioNTech", "Pfizer", "mRNA", 2, 95, 10⟩

/-- A second two-dose vaccine with a distinct name. -/
def exVaccine2 : Vaccine := ⟨"v2", "Moderna", "Moderna", "mRNA", 2, 94, 5⟩

/-- A single-dose vaccine with zero stock. -/
def exVaccine0 : Vaccine := ⟨"v0", "Janssen", "Johnson & Johnson", "Viral Vector", 1, 66, 0⟩

/-- A record of one dose of `exVaccine1`. -/
def exRecord1 : VaccinationRecord := ⟨"v1", "Pfizer-BioNTech", "2024-01-01"⟩

/-- A record of one dose of `exVaccine0`. -/
def exRecord0 : VaccinationRecord := ⟨"v0", "Janssen", "2024-02-01"⟩

/-- An unvaccinated patient with an empty history. -/
def exPatient1 : Patient := ⟨"p1", "Alice", 30, "Female", "a@x", "1", .notVaccinated, [], none⟩

/-- A patient who already carries one history record. -/
def exPatientHist : Patient := ⟨"p2", "Bob", 40, "Male", "b@x", "2", .notVaccinated, [exRecord1], none⟩

/-- A patient stored as Fully Vaccinated despite an empty history. -/
def exPatientFullEmpty : Patient := ⟨"p3", "Carol", 50, "Other", "c@x", "3", .fullyVaccinated, [], none⟩

/-- The empty state with all-zero statistics. -/
def exState0 : AppState := ⟨[], [], some ⟨0, 0, 0, [], []⟩⟩

/-- A one-patient, one-vaccine state with matching statistics. -/
def exState1 : AppState := ⟨[exPatient1], [exVaccine1], some ⟨1, 0, 0, [], []⟩⟩

/-- A one-patient state whose only vaccine has zero stock. -/
def exStateZ : AppState := ⟨[exPatient1], [exVaccine0], none⟩

/-! ### Helper lemmas -/

/-- A conditional rewrite map is the identity when no element satisfies the
condition. -/
theorem map_ite_id {α : Type} (l : List α) (c : α → Bool) (u : α → α)
    (h : ∀ x ∈ l, c x = false) :
    l.map (fun x => if c x then u x else x) = l := by
  induction l with
  | nil => rfl
  | cons a t ih =>
    have ha := h a (List.mem_cons_self a t)
    simp [ha, ih (fun x hx => h x (List.mem_cons_of_mem a hx))]

/-- Updating the unique patient that matches `pid` changes a sum of
per-patient contributions by exactly the update's contribution delta. -/
theorem sum_map_update (l : List Patient) (pid : String) (u : Patient → Patient)
    (g : Patient → Int) (p : Patient)
    (hnd : (l.map Patient.id).Nodup)
    (hfind : l.find? (fun q => q.id == pid) = some p) :
    ((l.map (fun q => if q.id == pid then u q else q)).map g).sum
      = (l.map g).sum + (g (u p) - g p) := by
  induction l with
  | nil => simp at hfind
  | cons a t ih =>
    rw [List.map_cons, List.nodup_cons] at hnd
    by_cases hc : (a.id == pid) = true
    · rw [List.find?_cons_of_pos t hc] at hfind
      have hap : a = p := by injection hfind
      subst hap
      have hae : a.id = pid := by simpa using hc
      have ht : ∀ x ∈ t, (x.id == pid) = false := by
        intro x hx
        have hxa : x.id ≠ a.id := fun he => hnd.1 (he ▸ List.mem_map_of_mem Patient.id hx)
        simpa [beq_eq_false_iff_ne] using hae ▸ hxa
      rw [List.map_cons, map_ite_id t _ u ht]
      simp only [hc, if_true, List.map_cons, List.sum_cons]
      ring
    · rw [List.find?_cons_of_neg t hc] at hfind
      have := ih hnd.2 hfind
      rw [List.map_cons, if_neg hc, List.map_cons, List.sum_cons, this,
        List.map_cons, List.sum_cons]
      ring

/-- The per-`name` reading of a cons cell of the breakdown. -/
theorem dosesFor_cons (d : DosesByManufacturer) (t : List DosesByManufacturer) (n : String) :
    dosesFor (d :: t) n = (if d.name = n then d.doses else 0) + dosesFor t n := by
  simp [dosesFor]

/-- The per-`name` reading distributes over append. -/
theorem dosesFor_append (a b : List DosesByManufacturer) (n : String) :
    dosesFor (a ++ b) n = dosesFor a n + dosesFor b n := by
  simp [dosesFor]

/-- Incrementing the entries named `m` leaves every name's image unchanged. -/
theorem bump_map_names (dbm : List DosesByManufacturer) (m : String) :
    ((dbm.map (fun d => if d.name == m then { d with doses := d.doses + 1 } else d)).map
      DosesByManufacturer.name) = dbm.map DosesByManufacturer.name := by
  induction dbm with
  | nil => rfl
  | cons a t ih =>
    rw [List.map_cons, List.map_cons, List.map_cons]
    by_cases hc : (a.name == m) = true
    · rw [if_pos hc, ih]
    · rw [if_neg hc, ih]

/-- When no entry is named `m`, the increment map is the identity. -/
theorem bump_map_id (dbm : List DosesByManufacturer) (m : String)
    (hmem : dbm.any (fun d => d.name == m) = false) :
    dbm.map (fun d => if d.name == m then { d with doses := d.doses + 1 } else d) = dbm := by
  refine map_ite_id dbm _ _ (fun d hd => ?_)
  have := List.any_eq_false.mp hmem d hd
  simpa using this

/-- With pairwise-distinct names and a present entry named `m`, bumping the
entries named `m` adds exactly one dose to `m`'s reading and nothing to any
other name's. -/
theorem dosesFor_map_bump (dbm : List DosesByManufacturer) (m n : String)
    (hnd : (dbm.map DosesByManufacturer.name).Nodup)
    (hmem : dbm.any (fun d => d.name == m) = true) :
    dosesFor (dbm.map (fun d => if d.name == m then { d with doses := d.doses + 1 } else d)) n
      = dosesFor dbm n + (if m = n then 1 else 0) := by
  induction dbm with
  | nil => simp at hmem
  | cons a t ih =>
    rw [List.map_cons, List.nodup_cons] at hnd
    by_cases hc : (a.name == m) = true
    · have ham : a.name = m := by simpa using hc
      have ht : ∀ d ∈ t, (d.name == m) = false := by
        intro d hd
        have hda : d.name ≠ a.name :=
          fun he => hnd.1 (he ▸ List.mem_map_of_mem DosesByManufacturer.name hd)
        simpa [beq_eq_false_iff_ne] using ham ▸ hda
      rw [List.map_cons, map_ite_id t _ _ ht]
      simp only [hc, if_true]
      rw [dosesFor_cons, dosesFor_cons]
      rcases eq_or_ne m n with hmn | hmn
      · simp only [hmn] at ham ⊢
        simp [ham]
        ring
      · have : a.name ≠ n := ham ▸ hmn
        simp [this, hmn]
    · have hmem' : t.any (fun d => d.name == m) = true := by
        simpa [List.any_cons, hc] using hmem
      rw [List.map_cons, if_neg hc, dosesFor_cons, dosesFor_cons, ih hnd.2 hmem']
      ring

/-- Bumping the entries named `m` does not change which names are present. -/
theorem bump_map_any (dbm : List DosesByManufacturer) (m m' : String) :
    ((dbm.map (fun d => if d.name == m then { d with doses := d.doses + 1 } else d)).any
      (fun d => d.name == m')) = dbm.any (fun d => d.name == m') := by
  induction dbm with
  | nil => rfl
  | cons a t ih =>
    by_cases hc : (a.name == m) = true
    · rw [List.map_cons, if_pos hc, List.any_cons, List.any_cons, ih]
    · rw [List.map_cons, if_neg hc, List.any_cons, List.any_cons, ih]

/-- Explicit shape of `administerVaccine` when the patient lookup succeeds. -/
theorem administerVaccine_found (s : AppState) (pid : String) (r : VaccinationRecord)
    (nd : Option String) (p : Patient)
    (hfind : s.patients.find? (fun q => q.id == pid) = some p) :
    administerVaccine pid r nd s =
      { patients := s.patients.map (fun q =>
          if q.id == pid then
            { q with vaccinationHistory := p.vaccinationHistory ++ [r],
                     status := getPatientStatus (p.vaccinationHistory ++ [r]) s.vaccines,
                     nextDoseDate := nd }
          else q),
        vaccines := s.vaccines.map (fun v =>
          if v.id == r.vaccineId then { v with inStock := v.inStock - 1 } else v),
        dashboardStats :=
          match s.dashboardStats with
          | none => none
          | some prev =>
            some { prev with
              totalDosesAdministered := prev.totalDosesAdministered + 1,
              fullyVaccinatedCount :=
                if !(p.status == VaccinationStatus.fullyVaccinated) &&
                    (getPatientStatus (p.vaccinationHistory ++ [r]) s.vaccines ==
                      VaccinationStatus.fullyVaccinated) then
                  prev.fullyVaccinatedCount + 1
                else prev.fullyVaccinatedCount,
              dosesByManufacturer :=
                if prev.dosesByManufacturer.any (fun d => d.name == r.vaccineName) then
                  prev.dosesByManufacturer.map (fun d =>
                    if d.name == r.vaccineName then { d with doses := d.doses + 1 } else d)
                else prev.dosesByManufacturer ++ [⟨r.vaccineName, 1⟩] } } := by
  unfold administerVaccine
  rw [hfind]
  cases hds : s.dashboardStats with
  | none => rfl
  | some prev =>
    simp only
    rw [bump_map_any]
    by_cases hmem : prev.dosesByManufacturer.any (fun d => d.name == r.vaccineName) = true
    · rw [if_pos hmem, if_pos hmem]
    · rw [if_neg hmem, if_neg hmem,
        bump_map_id prev.dosesByManufacturer r.vaccineName (Bool.eq_false_iff.mpr hmem)]

/-- The Bool guard of the `fullyVaccinatedCount` update, propositionally. -/
theorem fvc_guard_iff (a b : VaccinationStatus) :
    ((!(a == VaccinationStatus.fullyVaccinated) &&
        (b == VaccinationStatus.fullyVaccinated)) = true)
      ↔ (a ≠ VaccinationStatus.fullyVaccinated ∧ b = VaccinationStatus.fullyVaccinated) := by
  simp [Bool.and_eq_true, Bool.not_eq_true', beq_eq_false_iff_ne]

/-- `all` respects pointwise-equal predicates on members. -/
theorem all_congr_mem {α : Type} (l : List α) (p q : α → Bool)
    (h : ∀ x ∈ l, p x = q x) : l.all p = l.all q := by
  induction l with
  | nil => rfl
  | cons a t ih =>
    rw [List.all_cons, List.all_cons, h a (List.mem_cons_self a t),
      ih (fun x hx => h x (List.mem_cons_of_mem a hx))]

/-- Status derivation only reads vaccine ids and required dose counts: it is
unchanged by a catalog map that preserves both. -/
theorem getPatientStatus_map_catalog (h : List VaccinationRecord) (catalog : List Vaccine)
    (f : Vaccine → Vaccine) (hid : ∀ v, (f v).id = v.id)
    (hdr : ∀ v, (f v).dosesRequired = v.dosesRequired) :
    getPatientStatus h (catalog.map f) = getPatientStatus h catalog := by
  have hfind : ∀ q : String,
      (catalog.map f).find? (fun v => v.id == q)
        = (catalog.find? (fun v => v.id == q)).map f := by
    intro q
    have hp : ((fun v : Vaccine => v.id == q) ∘ f) = (fun v : Vaccine => v.id == q) := by
      funext v
      simp [Function.comp, hid]
    rw [List.find?_map, hp]
  have hP : (fun vid : String => match (catalog.map f).find? (fun v => v.id == vid) with
      | some v => decide (v.dosesRequired ≤
          (h.filter (fun r : VaccinationRecord => r.vaccineId == vid)).length)
      | none => true)
      = (fun vid : String => match catalog.find? (fun v => v.id == vid) with
      | some v => decide (v.dosesRequired ≤
          (h.filter (fun r : VaccinationRecord => r.vaccineId == vid)).length)
      | none => true) := by
    funext vid
    rw [hfind vid]
    cases catalog.find? (fun v => v.id == vid) with
    | none => rfl
    | some v => simp [hdr]
  unfold getPatientStatus
  rw [hP]

/-- Status derivation ignores a catalog entry whose id no history record
references. -/
theorem getPatientStatus_cons_of_not_referenced (h : List VaccinationRecord)
    (catalog : List Vaccine) (v : Vaccine)
    (hnr : ∀ r0 ∈ h, r0.vaccineId ≠ v.id) :
    getPatientStatus h (v :: catalog) = getPatientStatus h catalog := by
  have hA : ∀ vid ∈ (h.map (fun r => r.vaccineId)).dedup,
      (fun vid : String => match (v :: catalog).find? (fun w => w.id == vid) with
        | some w => decide (w.dosesRequired ≤
            (h.filter (fun r : VaccinationRecord => r.vaccineId == vid)).length)
        | none => true) vid
      = (fun vid : String => match catalog.find? (fun w => w.id == vid) with
        | some w => decide (w.dosesRequired ≤
            (h.filter (fun r : VaccinationRecord => r.vaccineId == vid)).length)
        | none => true) vid := by
    intro vid hvid
    have hvid' : vid ∈ h.map (fun r => r.vaccineId) := List.mem_dedup.mp hvid
    obtain ⟨r0, hr0, hre⟩ := List.mem_map.mp hvid'
    have hne : v.id ≠ vid := fun he => hnr r0 hr0 (by rw [hre, ← he])
    have hbe : (v.id == vid) = false := beq_eq_false_iff_ne.mpr hne
    simp only
    rw [List.find?_cons_of_neg catalog (by simp [hbe])]
  unfold getPatientStatus
  rw [all_congr_mem _ _ _ hA]

/-- The stock decrement performed by `administerVaccine` does not change
status derivation. -/
theorem getPatientStatus_stock_dec (h : List VaccinationRecord) (catalog : List Vaccine)
    (rid : String) :
    getPatientStatus h (catalog.map (fun v =>
      if v.id == rid then { v with inStock := v.inStock - 1 } else v))
      = getPatientStatus h catalog := by
  refine getPatientStatus_map_catalog h catalog _ (fun v => ?_) (fun v => ?_)
  · by_cases hc : (v.id == rid) = true
    · rw [if_pos hc]
    · rw [if_neg hc]
  · by_cases hc : (v.id == rid) = true
    · rw [if_pos hc]
    · rw [if_neg hc]

/-- Per-patient unfolding of `totalDosesOf`. -/
theorem totalDosesOf_cons (p : Patient) (l : List Patient) :
    totalDosesOf (p :: l) = (p.vaccinationHistory.length : Int) + totalDosesOf l := by
  simp [totalDosesOf]

/-- Per-patient unfolding of `fullyCountOf`. -/
theorem fullyCountOf_cons (p : Patient) (l : List Patient) :
    fullyCountOf (p :: l)
      = (if p.status = VaccinationStatus.fullyVaccinated then (1 : Int) else 0)
        + fullyCountOf l := by
  simp [fullyCountOf]

/-- Per-patient unfolding of `recomputedDosesOf`. -/
theorem recomputedDosesOf_cons (p : Patient) (l : List Patient) (n : String) :
    recomputedDosesOf (p :: l) n
      = ((p.vaccinationHistory.filter (fun r => r.vaccineName == n)).length : Int)
        + recomputedDosesOf l n := by
  simp [recomputedDosesOf]

/-- `addPatient` preserves the status invariant when the new patient's
stored status is the status derived from its history. -/
theorem statusInv_addPatient (s : AppState) (p : Patient) (hinv : statusInv s)
    (hp : p.status = getPatientStatus p.vaccinationHistory s.vaccines) :
    statusInv (addPatient p s) := by
  intro q hq
  simp only [addPatient] at hq ⊢
  rcases List.mem_cons.mp hq with hq | hq
  · subst hq; exact hp
  · exact hinv q hq

/-- `addVaccine` preserves the status invariant when the new vaccine's id is
not referenced by any existing history record. -/
theorem statusInv_addVaccine (s : AppState) (v : Vaccine) (hinv : statusInv s)
    (hv : ∀ q ∈ s.patients, ∀ r0 ∈ q.vaccinationHistory, r0.vaccineId ≠ v.id) :
    statusInv (addVaccine v s) := by
  intro q hq
  simp only [addVaccine] at hq ⊢
  rw [getPatientStatus_cons_of_not_referenced q.vaccinationHistory s.vaccines v (hv q hq)]
  exact hinv q hq

/-- `administerVaccine` preserves the status invariant unconditionally: the
updated patient's status is recomputed from its updated history, and the
stock decrement does not affect derivation. -/
theorem statusInv_administer (s : AppState) (pid : String) (r : VaccinationRecord)
    (nd : Option String) (hinv : statusInv s) :
    statusInv (administerVaccine pid r nd s) := by
  cases hfind : s.patients.find? (fun q => q.id == pid) with
  | none =>
    unfold administerVaccine
    rw [hfind]
    exact hinv
  | some p =>
    rw [administerVaccine_found s pid r nd p hfind]
    intro q hq
    simp only at hq ⊢
    rw [getPatientStatus_stock_dec]
    obtain ⟨q0, hq0, hqe⟩ := List.mem_map.mp hq
    subst hqe
    by_cases hc : (q0.id == pid) = true
    · rw [if_pos hc]
    · rw [if_neg hc]; exact hinv q0 hq0

/-- `addPatient` with a fresh, history-free, not-fully-vaccinated patient
preserves the dashboard invariant. -/
theorem dashboardInv_addPatient (s : AppState) (p : Patient) (hinv : dashboardInv s)
    (hh : p.vaccinationHistory = []) (hst : p.status ≠ VaccinationStatus.fullyVaccinated)
    (hfresh : ∀ q ∈ s.patients, q.id ≠ p.id) :
    dashboardInv (addPatient p s) := by
  obtain ⟨hids, hnames, hcons⟩ := hinv
  refine ⟨?_, ?_, ?_⟩
  · unfold registryIdsNodup at hids ⊢
    simp only [addPatient, List.map_cons, List.nodup_cons]
    refine ⟨fun hmem => ?_, hids⟩
    obtain ⟨q, hq, he⟩ := List.mem_map.mp hmem
    exact hfresh q hq he
  · intro st hst'
    cases hds : s.dashboardStats with
    | none => simp [addPatient, hds] at hst'
    | some prev =>
      simp only [addPatient, hds] at hst'
      injection hst' with hst'
      subst hst'
      exact hnames prev hds
  · intro st hst'
    cases hds : s.dashboardStats with
    | none => simp [addPatient, hds] at hst'
    | some prev =>
      simp only [addPatient, hds] at hst'
      injection hst' with hst'
      subst hst'
      obtain ⟨h1, h2, h3, h4⟩ := hcons prev hds
      refine ⟨?_, ?_, ?_, ?_⟩
      · simp only [addPatient, List.length_cons]
        push_cast
        omega
      · simp only [addPatient]
        rw [totalDosesOf_cons, hh]
        simpa using h2
      · simp only [addPatient]
        rw [fullyCountOf_cons, if_neg hst]
        simpa using h3
      · intro n
        simp only [addPatient]
        rw [recomputedDosesOf_cons, hh]
        simpa using h4 n

/-- `addVaccine` preserves the dashboard invariant unconditionally. -/
theorem dashboardInv_addVaccine (s : AppState) (v : Vaccine) (hinv : dashboardInv s) :
    dashboardInv (addVaccine v s) := by
  obtain ⟨hids, hnames, hcons⟩ := hinv
  refine ⟨hids, ?_, ?_⟩
  · intro st hst'
    cases hds : s.dashboardStats with
    | none => simp [addVaccine, hds] at hst'
    | some prev =>
      simp only [addVaccine, hds] at hst'
      by_cases hmem : prev.dosesByManufacturer.any (fun d => d.name == v.name) = true
      · rw [if_pos hmem] at hst'
        injection hst' with hst'
        subst hst'
        exact hnames prev hds
      · rw [if_neg hmem] at hst'
        injection hst' with hst'
        subst hst'
        simp only [List.map_append, List.map_cons, List.map_nil]
        rw [List.nodup_append]
        refine ⟨hnames prev hds, List.nodup_singleton _, fun x hx hx' => ?_⟩
        obtain ⟨d, hd, hde⟩ := List.mem_map.mp hx
        have hne := List.any_eq_false.mp (Bool.eq_false_iff.mpr hmem) d hd
        rw [List.mem_singleton] at hx'
        exact hne (beq_iff_eq.mpr (hde.trans hx'))
  · intro st hst'
    cases hds : s.dashboardStats with
    | none => simp [addVaccine, hds] at hst'
    | some prev =>
      simp only [addVaccine, hds] at hst'
      obtain ⟨h1, h2, h3, h4⟩ := hcons prev hds
      by_cases hmem : prev.dosesByManufacturer.any (fun d => d.name == v.name) = true
      · rw [if_pos hmem] at hst'
        injection hst' with hst'
        subst hst'
        exact ⟨h1, h2, h3, h4⟩
      · rw [if_neg hmem] at hst'
        injection hst' with hst'
        subst hst'
        refine ⟨h1, h2, h3, fun n => ?_⟩
        rw [dosesFor_append, dosesFor_cons]
        have : dosesFor [] n = 0 := rfl
        rw [this]
        have h0 : (if v.name = n then (0 : Int) else 0) = 0 := ite_self 0
        simp only [h0]
        simpa using h4 n

/-- `administerVaccine` preserves the dashboard invariant provided it never
moves an already Fully Vaccinated patient out of Fully Vaccinated. -/
theorem dashboardInv_administer (s : AppState) (pid : String) (r : VaccinationRecord)
    (nd : Option String) (hinv : dashboardInv s)
    (hdem : ∀ p, s.patients.find? (fun q => q.id == pid) = some p →
      p.status = VaccinationStatus.fullyVaccinated →
      getPatientStatus (p.vaccinationHistory ++ [r]) s.vaccines =
        VaccinationStatus.fullyVaccinated) :
    dashboardInv (administerVaccine pid r nd s) := by
  obtain ⟨hids, hnames, hcons⟩ := hinv
  cases hfind : s.patients.find? (fun q => q.id == pid) with
  | none =>
    unfold administerVaccine
    rw [hfind]
    exact ⟨hids, hnames, hcons⟩
  | some p =>
    have hdem' := hdem p hfind
    rw [administerVaccine_found s pid r nd p hfind]
    have hcomp : (Patient.id ∘ fun q => if q.id == pid then
        { q with vaccinationHistory := p.vaccinationHistory ++ [r],
                 status := getPatientStatus (p.vaccinationHistory ++ [r]) s.vaccines,
                 nextDoseDate := nd } else q) = Patient.id := by
      funext q
      by_cases hc : (q.id == pid) = true
      · simp [Function.comp, hc]
      · simp [Function.comp, hc]
    refine ⟨?_, ?_, ?_⟩
    · show ((s.patients.map (fun q => if q.id == pid then
          { q with vaccinationHistory := p.vaccinationHistory ++ [r],
                   status := getPatientStatus (p.vaccinationHistory ++ [r]) s.vaccines,
                   nextDoseDate := nd } else q)).map Patient.id).Nodup
      rw [List.map_map, hcomp]
      exact hids
    · intro st hst'
      cases hds : s.dashboardStats with
      | none => simp [hds] at hst'
      | some prev =>
        simp only [hds] at hst'
        injection hst' with hst'
        subst hst'
        simp only
        by_cases hmem : prev.dosesByManufacturer.any (fun d => d.name == r.vaccineName) = true
        · rw [if_pos hmem, bump_map_names]
          exact hnames prev hds
        · rw [if_neg hmem]
          simp only [List.map_append, List.map_cons, List.map_nil]
          rw [List.nodup_append]
          refine ⟨hnames prev hds, List.nodup_singleton _, fun x hx hx' => ?_⟩
          obtain ⟨d, hd, hde⟩ := List.mem_map.mp hx
          have hne := List.any_eq_false.mp (Bool.eq_false_iff.mpr hmem) d hd
          rw [List.mem_singleton] at hx'
          exact hne (beq_iff_eq.mpr (hde.trans hx'))
    · intro st hst'
      cases hds : s.dashboardStats with
      | none => simp [hds] at hst'
      | some prev =>
        simp only [hds] at hst'
        injection hst' with hst'
        subst hst'
        obtain ⟨h1, h2, h3, h4⟩ := hcons prev hds
        refine ⟨?_, ?_, ?_, ?_⟩
        · simpa [List.length_map] using h1
        · have hsum1 := sum_map_update s.patients pid (fun q =>
              { q with vaccinationHistory := p.vaccinationHistory ++ [r],
                       status := getPatientStatus (p.vaccinationHistory ++ [r]) s.vaccines,
                       nextDoseDate := nd })
              (fun q => (q.vaccinationHistory.length : Int)) p hids hfind
          simp only [totalDosesOf] at h2 ⊢
          rw [hsum1]
          simp only [List.length_append, List.length_cons, List.length_nil]
          push_cast
          omega
        · have hsum2 := sum_map_update s.patients pid (fun q =>
              { q with vaccinationHistory := p.vaccinationHistory ++ [r],
                       status := getPatientStatus (p.vaccinationHistory ++ [r]) s.vaccines,
                       nextDoseDate := nd })
              (fun q => if q.status = VaccinationStatus.fullyVaccinated then (1 : Int) else 0)
              p hids hfind
          simp only [fullyCountOf] at h3 ⊢
          rw [hsum2]
          by_cases hw : p.status = VaccinationStatus.fullyVaccinated
          · have hn := hdem' hw
            simp only [hw, hn]
            simp
            omega
          · by_cases hn : getPatientStatus (p.vaccinationHistory ++ [r]) s.vaccines =
                VaccinationStatus.fullyVaccinated
            · simp only [hn]
              simp [hw]
              omega
            · simp [hw, hn]
              omega
        · intro n
          have hsum3 := sum_map_update s.patients pid (fun q =>
              { q with vaccinationHistory := p.vaccinationHistory ++ [r],
                       status := getPatientStatus (p.vaccinationHistory ++ [r]) s.vaccines,
                       nextDoseDate := nd })
              (fun q =>
                ((q.vaccinationHistory.filter (fun rr => rr.vaccineName == n)).length : Int))
              p hids hfind
          simp only [recomputedDosesOf] at h4 ⊢
          have hrhs : dosesFor prev.dosesByManufacturer n
                + (if r.vaccineName = n then (1 : Int) else 0)
              = ((s.patients.map (fun q => if q.id == pid then
                  { q with vaccinationHistory := p.vaccinationHistory ++ [r],
                           status := getPatientStatus (p.vaccinationHistory ++ [r]) s.vaccines,
                           nextDoseDate := nd } else q)).map (fun q =>
                    ((q.vaccinationHistory.filter
                      (fun rr => rr.vaccineName == n)).length : Int))).sum := by
            rw [hsum3, ← h4 n]
            simp only [List.filter_append, List.length_append]
            by_cases hrn : (r.vaccineName == n) = true
            · have hrn' : r.vaccineName = n := by simpa using hrn
              simp [List.filter_cons, hrn, hrn']
            · have hrn' : r.vaccineName ≠ n := by simpa using hrn
              simp [List.filter_cons, hrn, hrn']
          rw [← hrhs]
          by_cases hmem : prev.dosesByManufacturer.any (fun d => d.name == r.vaccineName) = true
          · rw [if_pos hmem, dosesFor_map_bump _ _ _ (hnames prev hds) hmem]
          · rw [if_neg hmem, dosesFor_append, dosesFor_cons]
            have h0 : dosesFor [] n = 0 := rfl
            rw [h0]
            ring

/-- `addVaccine` keeps the breakdown names pairwise distinct. -/
theorem statsNamesNodup_addVaccine (s : AppState) (v : Vaccine)
    (hnames : statsNamesNodup s) : statsNamesNodup (addVaccine v s) := by
  intro st hst'
  cases hds : s.dashboardStats with
  | none => simp [addVaccine, hds] at hst'
  | some prev =>
    simp only [addVaccine, hds] at hst'
    by_cases hmem : prev.dosesByManufacturer.any (fun d => d.name == v.name) = true
    · rw [if_pos hmem] at hst'
      injection hst' with hst'
      subst hst'
      exact hnames prev hds
    · rw [if_neg hmem] at hst'
      injection hst' with hst'
      subst hst'
      simp only [List.map_append, List.map_cons, List.map_nil]
      rw [List.nodup_append]
      refine ⟨hnames prev hds, List.nodup_singleton _, fun x hx hx' => ?_⟩
      obtain ⟨d, hd, hde⟩ := List.mem_map.mp hx
      have hne := List.any_eq_false.mp (Bool.eq_false_iff.mpr hmem) d hd
      rw [List.mem_singleton] at hx'
      exact hne (beq_iff_eq.mpr (hde.trans hx'))

/-- `administerVaccine` keeps the breakdown names pairwise distinct. -/
theorem statsNamesNodup_administer (s : AppState) (pid : String) (r : VaccinationRecord)
    (nd : Option String) (hnames : statsNamesNodup s) :
    statsNamesNodup (administerVaccine pid r nd s) := by
  cases hfind : s.patients.find? (fun q => q.id == pid) with
  | none =>
    unfold administerVaccine
    rw [hfind]
    exact hnames
  | some p =>
    rw [administerVaccine_found s pid r nd p hfind]
    intro st hst'
    cases hds : s.dashboardStats with
    | none => simp [hds] at hst'
    | some prev =>
      simp only [hds] at hst'
      injection hst' with hst'
      subst hst'
      simp only
      by_cases hmem : prev.dosesByManufacturer.any (fun d => d.name == r.vaccineName) = true
      · rw [if_pos hmem, bump_map_names]
        exact hnames prev hds
      · rw [if_neg hmem]
        simp only [List.map_append, List.map_cons, List.map_nil]
        rw [List.nodup_append]
        refine ⟨hnames prev hds, List.nodup_singleton _, fun x hx hx' => ?_⟩
        obtain ⟨d, hd, hde⟩ := List.mem_map.mp hx
        have hne := List.any_eq_false.mp (Bool.eq_false_iff.mpr hmem) d hd
        rw [List.mem_singleton] at hx'
        exact hne (beq_iff_eq.mpr (hde.trans hx'))

/-- The combined dashboard invariant is preserved along any run whose steps
all satisfy `goodOp`. -/
theorem dashboardInv_run (s : AppState) (ops : List Op) (hinv : dashboardInv s)
    (hgood : goodOps s ops) : dashboardInv (run s ops) := by
  induction ops generalizing s with
  | nil => exact hinv
  | cons op rest ih =>
    obtain ⟨hop, hrest⟩ := hgood
    have hstep : dashboardInv (step s op) := by
      cases op with
      | addPatient p =>
        obtain ⟨hh, hst, hfresh⟩ := hop
        exact dashboardInv_addPatient s p hinv hh hst hfresh
      | addVaccine v => exact dashboardInv_addVaccine s v hinv
      | administer pid r nd =>
        refine dashboardInv_administer s pid r nd hinv ?_
        intro p hf hw
        simp only [goodOp, hf] at hop
        exact hop hw
    exact ih (step s op) hstep hrest

/-! ### Claim theorems -/

/-- C4: `administerVaccine` with a patient id that equals no registry
patient's id is a complete no-op — the patient list, the vaccine catalog
(including every `inStock` count), and every field of the dashboard
statistics are unchanged. -/
theorem administerVaccine_unknown_patient_noop (s : AppState) (pid : String)
    (r : VaccinationRecord) (nd : Option String)
    (h : ∀ p ∈ s.patients, p.id ≠ pid) :
    administerVaccine pid r nd s = s := by
  have hfind : s.patients.find? (fun q => q.id == pid) = none := by
    rw [List.find?_eq_none]
    intro q hq
    simpa using h q hq
  unfold administerVaccine
  rw [hfind]

/-- C4 witness: administering for the unknown id "zz" leaves a concrete
state untouched. -/
theorem administerVaccine_unknown_patient_noop_witness :
    administerVaccine "zz" exRecord1 none exState1 = exState1 :=
  administerVaccine_unknown_patient_noop exState1 "zz" exRecord1 none (by decide)

/-- C5: on `administerVaccine` for an existing patient, every catalog
position whose vaccine id equals the record's `vaccineId` has `inStock`
decreased by exactly one — unconditionally, with no clamp at zero — and
every position with a different id is unchanged. -/
theorem administerVaccine_stock_decrement (s : AppState) (pid : String)
    (r : VaccinationRecord) (nd : Option String) (p : Patient)
    (hfind : s.patients.find? (fun q => q.id == pid) = some p) (i : Nat) :
    (administerVaccine pid r nd s).vaccines[i]? =
      (s.vaccines[i]?).map (fun v =>
        if v.id = r.vaccineId then { v with inStock := v.inStock - 1 } else v) := by
  rw [administerVaccine_found s pid r nd p hfind]
  show (s.vaccines.map (fun v =>
      if v.id == r.vaccineId then { v with inStock := v.inStock - 1 } else v))[i]? = _
  rw [List.getElem?_map]
  have hf : (fun v : Vaccine =>
        if v.id == r.vaccineId then { v with inStock := v.inStock - 1 } else v)
      = (fun v : Vaccine =>
        if v.id = r.vaccineId then { v with inStock := v.inStock - 1 } else v) := by
    funext v
    by_cases hc : v.id = r.vaccineId
    · simp [hc]
    · simp [hc]
  rw [hf]

/-- C5 witness: administering a dose of the zero-stock vaccine drives its
stock to -1. -/
theorem administerVaccine_stock_decrement_witness :
    (administerVaccine "p1" exRecord0 none exStateZ).vaccines[0]? =
      some { exVaccine0 with inStock := -1 } := by
  have h := administerVaccine_stock_decrement exStateZ "p1" exRecord0 none exPatient1
    (by decide) 0
  rw [h]
  decide

/-- C9: `addPatient`, when dashboard statistics are present, increments
`totalPatients` by exactly one and leaves `totalDosesAdministered`,
`fullyVaccinatedCount`, `dosesByManufacturer` and `vaccinationsByAgeGroup`
unchanged. -/
theorem addPatient_stats_frame (s : AppState) (p : Patient) (st : DashboardStats)
    (hst : s.dashboardStats = some st) :
    ∃ st', (addPatient p s).dashboardStats = some st' ∧
      st'.totalPatients = st.totalPatients + 1 ∧
      st'.totalDosesAdministered = st.totalDosesAdministered ∧
      st'.fullyVaccinatedCount = st.fullyVaccinatedCount ∧
      st'.dosesByManufacturer = st.dosesByManufacturer ∧
      st'.vaccinationsByAgeGroup = st.vaccinationsByAgeGroup := by
  refine ⟨{ st with totalPatients := st.totalPatients + 1 }, ?_, rfl, rfl, rfl, rfl, rfl⟩
  simp [addPatient, hst]

/-- C9 witness at a concrete state. -/
theorem addPatient_stats_frame_witness :
    ∃ st', (addPatient exPatient1 exState0).dashboardStats = some st' ∧
      st'.totalPatients = (0 : Int) + 1 ∧
      st'.totalDosesAdministered = 0 ∧ st'.fullyVaccinatedCount = 0 ∧
      st'.dosesByManufacturer = [] ∧ st'.vaccinationsByAgeGroup = [] :=
  addPatient_stats_frame exState0 exPatient1 ⟨0, 0, 0, [], []⟩ rfl

/-- C10: no mutation path updates `vaccinationsByAgeGroup`: along any run
of the three operations the age-group statistics field is unchanged. -/
theorem vaccinationsByAgeGroup_never_updated (s : AppState) (ops : List Op) :
    ((run s ops).dashboardStats).map DashboardStats.vaccinationsByAgeGroup
      = (s.dashboardStats).map DashboardStats.vaccinationsByAgeGroup := by
  induction ops generalizing s with
  | nil => rfl
  | cons op rest ih =>
    have h1 : ((step s op).dashboardStats).map DashboardStats.vaccinationsByAgeGroup
        = (s.dashboardStats).map DashboardStats.vaccinationsByAgeGroup := by
      cases op with
      | addPatient p =>
        cases hds : s.dashboardStats <;> simp [step, addPatient, hds]
      | addVaccine v =>
        cases hds : s.dashboardStats with
        | none => simp [step, addVaccine, hds]
        | some prev =>
          simp only [step, addVaccine, hds]
          by_cases hmem : prev.dosesByManufacturer.any (fun d => d.name == v.name) = true
          · rw [if_pos hmem]
          · rw [if_neg hmem]
            rfl
      | administer pid r nd =>
        cases hfind : s.patients.find? (fun q => q.id == pid) with
        | none =>
          show ((administerVaccine pid r nd s).dashboardStats).map
              DashboardStats.vaccinationsByAgeGroup = _
          unfold administerVaccine
          rw [hfind]
        | some p =>
          show ((administerVaccine pid r nd s).dashboardStats).map
              DashboardStats.vaccinationsByAgeGroup = _
          rw [administerVaccine_found s pid r nd p hfind]
          cases hds : s.dashboardStats <;> simp [hds]
    exact (ih (step s op)).trans h1

/-- The statistics produced by `addVaccine` as a function of the previous
statistics. -/
theorem addVaccine_stats (s : AppState) (v : Vaccine) (st : DashboardStats)
    (hst : s.dashboardStats = some st) :
    (addVaccine v s).dashboardStats =
      if st.dosesByManufacturer.any (fun d => d.name == v.name) then some st
      else some { st with
        dosesByManufacturer := st.dosesByManufacturer ++ [⟨v.name, 0⟩] } := by
  simp only [addVaccine, hst]

/-- C7: `addVaccine` appends a `{name, doses: 0}` breakdown entry exactly
when no entry carries the vaccine's name, leaves the breakdown entirely
unchanged otherwise, and a second `addVaccine` with the same name never
creates a duplicate entry. -/
theorem addVaccine_dosesByManufacturer_spec (s : AppState) (v : Vaccine)
    (st : DashboardStats) (hst : s.dashboardStats = some st) :
    ∃ st', (addVaccine v s).dashboardStats = some st' ∧
      ((∀ d ∈ st.dosesByManufacturer, d.name ≠ v.name) →
        st'.dosesByManufacturer = st.dosesByManufacturer ++ [⟨v.name, 0⟩]) ∧
      ((∃ d ∈ st.dosesByManufacturer, d.name = v.name) →
        st'.dosesByManufacturer = st.dosesByManufacturer) ∧
      (∀ st'', (addVaccine v (addVaccine v s)).dashboardStats = some st'' →
        st''.dosesByManufacturer = st'.dosesByManufacturer) := by
  by_cases hmem : st.dosesByManufacturer.any (fun d => d.name == v.name) = true
  · have hds1 : (addVaccine v s).dashboardStats = some st := by
      rw [addVaccine_stats s v st hst, if_pos hmem]
    refine ⟨st, hds1, ?_, fun _ => rfl, ?_⟩
    · intro hall
      obtain ⟨d, hd, hde⟩ := List.any_eq_true.mp hmem
      exact absurd (by simpa using hde) (hall d hd)
    · intro st'' hst''
      rw [addVaccine_stats (addVaccine v s) v st hds1, if_pos hmem] at hst''
      injection hst'' with h
      rw [h]
  · have hds1 : (addVaccine v s).dashboardStats = some
        { st with dosesByManufacturer := st.dosesByManufacturer ++ [⟨v.name, 0⟩] } := by
      rw [addVaccine_stats s v st hst, if_neg hmem]
    refine ⟨_, hds1, fun _ => rfl, ?_, ?_⟩
    · intro hex
      obtain ⟨d, hd, hde⟩ := hex
      exact absurd hmem (by simp [List.any_eq_true]; exact ⟨d, hd, hde⟩)
    · intro st'' hst''
      have hany2 : ({ st with
          dosesByManufacturer := st.dosesByManufacturer ++ [⟨v.name, 0⟩] } :
            DashboardStats).dosesByManufacturer.any (fun d => d.name == v.name) = true := by
        simp [List.any_append]
      rw [addVaccine_stats (addVaccine v s) v _ hds1, if_pos hany2] at hst''
      injection hst'' with h
      rw [h]

/-- C7 witness: adding a vaccine with a fresh name appends a zero-dose
entry. -/
theorem addVaccine_dosesByManufacturer_spec_witness :
    ∃ st', (addVaccine exVaccine2 exState1).dashboardStats = some st' ∧
      st'.dosesByManufacturer = [⟨"Moderna", 0⟩] := by
  obtain ⟨st', h1, h2, h3, h4⟩ :=
    addVaccine_dosesByManufacturer_spec exState1 exVaccine2 ⟨1, 0, 0, [], []⟩ rfl
  refine ⟨st', h1, ?_⟩
  rw [h2 (by decide)]
  rfl

/-- C8: on `administerVaccine` for an existing patient with statistics
present, every breakdown entry named after the record's vaccine has its
dose count increased by exactly one, every entry with a different name is
unchanged, and when no entry carries that name a `{name, doses: 1}` entry
is appended. -/
theorem administerVaccine_dosesByManufacturer_spec (s : AppState) (pid : String)
    (r : VaccinationRecord) (nd : Option String) (p : Patient) (st : DashboardStats)
    (hfind : s.patients.find? (fun q => q.id == pid) = some p)
    (hst : s.dashboardStats = some st) :
    ∃ st', (administerVaccine pid r nd s).dashboardStats = some st' ∧
      ((∃ d ∈ st.dosesByManufacturer, d.name = r.vaccineName) →
        st'.dosesByManufacturer = st.dosesByManufacturer.map (fun d =>
          if d.name = r.vaccineName then { d with doses := d.doses + 1 } else d)) ∧
      ((∀ d ∈ st.dosesByManufacturer, d.name ≠ r.vaccineName) →
        st'.dosesByManufacturer = st.dosesByManufacturer ++ [⟨r.vaccineName, 1⟩]) := by
  have hfb : (fun d : DosesByManufacturer =>
        if d.name == r.vaccineName then { d with doses := d.doses + 1 } else d)
      = (fun d : DosesByManufacturer =>
        if d.name = r.vaccineName then { d with doses := d.doses + 1 } else d) := by
    funext d
    by_cases hc : d.name = r.vaccineName
    · simp [hc]
    · simp [hc]
  by_cases hmem : st.dosesByManufacturer.any (fun d => d.name == r.vaccineName) = true
  · have hds1 : (administerVaccine pid r nd s).dashboardStats = some
        { st with
          totalDosesAdministered := st.totalDosesAdministered + 1,
          fullyVaccinatedCount :=
            if !(p.status == VaccinationStatus.fullyVaccinated) &&
                (getPatientStatus (p.vaccinationHistory ++ [r]) s.vaccines ==
                  VaccinationStatus.fullyVaccinated) then st.fullyVaccinatedCount + 1
            else st.fullyVaccinatedCount,
          dosesByManufacturer := st.dosesByManufacturer.map (fun d =>
            if d.name == r.vaccineName then { d with doses := d.doses + 1 } else d) } := by
      rw [administerVaccine_found s pid r nd p hfind]
      simp only [hst]
      rw [if_pos hmem]
    refine ⟨_, hds1, fun _ => ?_, ?_⟩
    · show st.dosesByManufacturer.map _ = _
      rw [hfb]
    · intro hall
      obtain ⟨d, hd, hde⟩ := List.any_eq_true.mp hmem
      exact absurd (by simpa using hde) (hall d hd)
  · have hds1 : (administerVaccine pid r nd s).dashboardStats = some
        { st with
          totalDosesAdministered := st.totalDosesAdministered + 1,
          fullyVaccinatedCount :=
            if !(p.status == VaccinationStatus.fullyVaccinated) &&
                (getPatientStatus (p.vaccinationHistory ++ [r]) s.vaccines ==
                  VaccinationStatus.fullyVaccinated) then st.fullyVaccinatedCount + 1
            else st.fullyVaccinatedCount,
          dosesByManufacturer := st.dosesByManufacturer ++ [⟨r.vaccineName, 1⟩] } := by
      rw [administerVaccine_found s pid r nd p hfind]
      simp only [hst]
      rw [if_neg hmem]
    refine ⟨_, hds1, ?_, fun _ => rfl⟩
    intro hex
    obtain ⟨d, hd, hde⟩ := hex
    exact absurd hmem (by simp [List.any_eq_true]; exact ⟨d, hd, hde⟩)

/-- C8 witness: administering a dose whose vaccine name is absent from the
breakdown appends a one-dose entry. -/
theorem administerVaccine_dosesByManufacturer_spec_witness :
    ∃ st', (administerVaccine "p1" exRecord1 none exState1).dashboardStats = some st' ∧
      st'.dosesByManufacturer = [⟨"Pfizer-BioNTech", 1⟩] := by
  obtain ⟨st', h1, h2, h3⟩ := administerVaccine_dosesByManufacturer_spec exState1 "p1"
    exRecord1 none exPatient1 ⟨1, 0, 0, [], []⟩ (by decide) rfl
  refine ⟨st', h1, ?_⟩
  rw [h3 (by decide)]
  rfl

/-- C2 counterexample: the empty state satisfies the status invariant, yet
`addPatient` with a patient stored as Fully Vaccinated over an empty
history reaches a state that violates it — so the three operations do not
preserve the invariant from every state and for every argument. -/
theorem statusInv_not_preserved_cex :
    statusInv ⟨[], [], none⟩ ∧
      ¬ statusInv (step ⟨[], [], none⟩ (Op.addPatient exPatientFullEmpty)) := by
  constructor
  · intro q hq
    exact absurd hq (by simp)
  · intro h
    have h3 := h exPatientFullEmpty (List.mem_singleton.mpr rfl)
    exact absurd h3 (by decide)

/-- C2 (amended): each operation preserves the invariant "every patient's
stored status equals `getPatientStatus` of its history against the current
catalog" under `statusSafe`: unconditionally for `administerVaccine`, when
the added patient carries its derived status for `addPatient`, and when the
added vaccine's id is referenced by no existing history record for
`addVaccine`. -/
theorem statusInv_preserved_of_statusSafe (s : AppState) (op : Op)
    (hinv : statusInv s) (hsafe : statusSafe s op) : statusInv (step s op) := by
  cases op with
  | addPatient p => exact statusInv_addPatient s p hinv hsafe
  | addVaccine v => exact statusInv_addVaccine s v hinv hsafe
  | administer pid r nd => exact statusInv_administer s pid r nd hinv

/-- C2 witness: a concrete dose administration preserving the invariant. -/
theorem statusInv_preserved_witness :
    statusInv (step exState1 (Op.administer "p1" exRecord1 none)) := by
  refine statusInv_preserved_of_statusSafe exState1 _ ?_ trivial
  intro q hq
  have hq' : q ∈ [exPatient1] := hq
  rcases List.mem_singleton.mp hq' with rfl
  decide

/-- C6: starting from statistics whose `dosesByManufacturer` names are
pairwise distinct, every sequence of `addVaccine` and `administerVaccine`
calls keeps at most one entry per distinct vaccine name. -/
theorem dosesByManufacturer_names_nodup_preserved (s : AppState) (ops : List Op)
    (hops : ∀ op ∈ ops, isStatsOp op) (hnn : statsNamesNodup s) :
    statsNamesNodup (run s ops) := by
  induction ops generalizing s with
  | nil => exact hnn
  | cons op rest ih =>
    have hstep : statsNamesNodup (step s op) := by
      cases op with
      | addPatient p => exact (hops _ (List.mem_cons_self _ _)).elim
      | addVaccine v => exact statsNamesNodup_addVaccine s v hnn
      | administer pid r nd => exact statsNamesNodup_administer s pid r nd hnn
    exact ih (step s op) (fun o ho => hops o (List.mem_cons_of_mem _ ho)) hstep

/-- C6 witness: a concrete add-then-administer run keeping names distinct. -/
theorem dosesByManufacturer_names_nodup_witness :
    statsNamesNodup (run exState1
      [Op.addVaccine exVaccine2, Op.administer "p1" exRecord1 none]) := by
  refine dosesByManufacturer_names_nodup_preserved exState1 _ ?_ ?_
  · intro op hop
    simp only [List.mem_cons, List.mem_singleton] at hop
    rcases hop with rfl | rfl | h
    · trivial
    · trivial
    · exact absurd h (List.not_mem_nil _)
  · intro st hst
    have h : some (⟨1, 0, 0, [], []⟩ : DashboardStats) = some st := hst
    injection h with h
    subst h
    decide

/-- C3: on `administerVaccine` for an existing patient with statistics
present, `fullyVaccinatedCount` increases by exactly one iff the found
patient's stored status was not Fully Vaccinated and the status recomputed
from the history with the record appended is Fully Vaccinated; in every
other case it is unchanged (in particular, repeated administrations to an
already Fully Vaccinated patient never increment it). -/
theorem fullyVaccinatedCount_increment_iff (s : AppState) (pid : String)
    (r : VaccinationRecord) (nd : Option String) (p : Patient) (st : DashboardStats)
    (hfind : s.patients.find? (fun q => q.id == pid) = some p)
    (hst : s.dashboardStats = some st) :
    ∃ st', (administerVaccine pid r nd s).dashboardStats = some st' ∧
      (st'.fullyVaccinatedCount = st.fullyVaccinatedCount + 1 ↔
        (p.status ≠ VaccinationStatus.fullyVaccinated ∧
          getPatientStatus (p.vaccinationHistory ++ [r]) s.vaccines =
            VaccinationStatus.fullyVaccinated)) ∧
      (¬ (p.status ≠ VaccinationStatus.fullyVaccinated ∧
            getPatientStatus (p.vaccinationHistory ++ [r]) s.vaccines =
              VaccinationStatus.fullyVaccinated) →
        st'.fullyVaccinatedCount = st.fullyVaccinatedCount) := by
  have hds : (administerVaccine pid r nd s).dashboardStats = some
      { st with
        totalDosesAdministered := st.totalDosesAdministered + 1,
        fullyVaccinatedCount :=
          if !(p.status == VaccinationStatus.fullyVaccinated) &&
              (getPatientStatus (p.vaccinationHistory ++ [r]) s.vaccines ==
                VaccinationStatus.fullyVaccinated) then st.fullyVaccinatedCount + 1
          else st.fullyVaccinatedCount,
        dosesByManufacturer :=
          if st.dosesByManufacturer.any (fun d => d.name == r.vaccineName) then
            st.dosesByManufacturer.map (fun d =>
              if d.name == r.vaccineName then { d with doses := d.doses + 1 } else d)
          else st.dosesByManufacturer ++ [⟨r.vaccineName, 1⟩] } := by
    rw [administerVaccine_found s pid r nd p hfind]
    simp only [hst]
  refine ⟨_, hds, ?_, ?_⟩
  · show (if !(p.status == VaccinationStatus.fullyVaccinated) &&
          (getPatientStatus (p.vaccinationHistory ++ [r]) s.vaccines ==
            VaccinationStatus.fullyVaccinated) then st.fullyVaccinatedCount + 1
        else st.fullyVaccinatedCount) = st.fullyVaccinatedCount + 1 ↔ _
    by_cases hc : p.status ≠ VaccinationStatus.fullyVaccinated ∧
        getPatientStatus (p.vaccinationHistory ++ [r]) s.vaccines =
          VaccinationStatus.fullyVaccinated
    · rw [if_pos ((fvc_guard_iff _ _).mpr hc)]
      exact ⟨fun _ => hc, fun _ => rfl⟩
    · rw [if_neg (fun hb => hc ((fvc_guard_iff _ _).mp hb))]
      constructor
      · intro habs
        exact absurd habs (by omega)
      · intro hco
        exact absurd hco hc
  · intro hnc
    show (if !(p.status == VaccinationStatus.fullyVaccinated) &&
          (getPatientStatus (p.vaccinationHistory ++ [r]) s.vaccines ==
            VaccinationStatus.fullyVaccinated) then st.fullyVaccinatedCount + 1
        else st.fullyVaccinatedCount) = st.fullyVaccinatedCount
    rw [if_neg (fun hb => hnc ((fvc_guard_iff _ _).mp hb))]

/-- C3 witness: the first dose of a two-dose vaccine does not change
`fullyVaccinatedCount`. -/
theorem fullyVaccinatedCount_increment_iff_witness :
    ∃ st', (administerVaccine "p1" exRecord1 none exState1).dashboardStats = some st' ∧
      st'.fullyVaccinatedCount = (0 : Int) := by
  obtain ⟨st', h1, h2, h3⟩ := fullyVaccinatedCount_increment_iff exState1 "p1" exRecord1
    none exPatient1 ⟨1, 0, 0, [], []⟩ (by decide) rfl
  refine ⟨st', h1, ?_⟩
  rw [h3 (by decide)]

/-- C1 counterexample: from a snapshot that agrees with the from-scratch
recomputation, a single `addPatient` whose argument already carries a
history record yields statistics that no longer agree (the incremental
`totalDosesAdministered` stays 0 while the recomputed one is 1) — so the
equivalence does not hold for every operation sequence. -/
theorem statsConsistent_not_preserved_cex :
    statsConsistent exState0 ∧
      ¬ statsConsistent (run exState0 [Op.addPatient exPatientHist]) := by
  constructor
  · intro st hst
    have h : some (⟨0, 0, 0, [], []⟩ : DashboardStats) = some st := hst
    injection h with h
    subst h
    exact ⟨rfl, rfl, rfl, fun n => rfl⟩
  · intro h
    obtain ⟨h1, h2, h3, h4⟩ := h ⟨1, 0, 0, [], []⟩ rfl
    exact absurd h2 (by decide)

/-- C1 (amended): along every run whose steps satisfy `goodOp` (each added
patient has a fresh id, an empty history and is not stored as Fully
Vaccinated; no dose administration moves an already Fully Vaccinated
patient out of Fully Vaccinated), starting from a state with distinct
patient ids, distinct breakdown names and statistics agreeing with the
from-scratch recomputation, the incrementally maintained `totalPatients`,
`totalDosesAdministered`, `fullyVaccinatedCount` and per-name
`dosesByManufacturer` counts still equal the from-scratch recomputation
over the resulting registry and catalog. `vaccinationsByAgeGroup` is
excluded: no operation maintains it and neither the spec nor the code
defines its recomputation. -/
theorem statsConsistent_preserved_of_goodOps (s : AppState) (ops : List Op)
    (hinv : dashboardInv s) (hgood : goodOps s ops) :
    statsConsistent (run s ops) :=
  (dashboardInv_run s ops hinv hgood).2.2

/-- C1 witness: a concrete add-vaccine-then-administer run stays
consistent. -/
theorem statsConsistent_preserved_witness :
    statsConsistent (run exState1
      [Op.addVaccine exVaccine2, Op.administer "p1" exRecord1 none]) := by
  refine statsConsistent_preserved_of_goodOps exState1 _ ⟨?_, ?_, ?_⟩ ⟨?_, ?_, ?_⟩
  · show ((exState1.patients).map Patient.id).Nodup
    decide
  · intro st hst
    have h : some (⟨1, 0, 0, [], []⟩ : DashboardStats) = some st := hst
    injection h with h
    subst h
    decide
  · intro st hst
    have h : some (⟨1, 0, 0, [], []⟩ : DashboardStats) = some st := hst
    injection h with h
    subst h
    exact ⟨rfl, rfl, rfl, fun n => rfl⟩
  · trivial
  · show exPatient1.status = VaccinationStatus.fullyVaccinated →
      getPatientStatus (exPatient1.vaccinationHistory ++ [exRecord1])
        (step exState1 (Op.addVaccine exVaccine2)).vaccines =
          VaccinationStatus.fullyVaccinated
    intro hw
    exact absurd hw (by decide)
  · trivial
